import Mathlib

/-!
Verification development for funcsamp2D.cpp: a shallow embedding of the
program's integrand library, sequence-corpus reader, convergence estimator
and reporter, together with theorems about them.  C doubles are modelled as
exact rational numbers; the transcendental library functions (exp, sin, sqrt)
are abstracted as an explicit record of function parameters, since no claim
depends on their values.
-/

namespace Funcsamp2D

/-- A 2D sample point, mirroring `typedef struct Point { double x, y; }`. -/
structure Point where
  x : ℚ
  y : ℚ
deriving DecidableEq, Repr

/-- The exact rational value of the C double constant M_PI
(0x400921FB54442D18 = 884279719003555 * 2^-48). -/
def M_PI : ℚ := 884279719003555 / 281474976710656

/-- Abstraction of the transcendental libm routines used by the integrands.
No claim under verification depends on their values, so they are parameters
of the development. -/
structure Prims where
  exp : ℚ → ℚ
  sin : ℚ → ℚ
  sqrt : ℚ → ℚ

/-- A trivial instantiation of the transcendental primitives, used for
concrete witnesses whose claims never evaluate them. -/
def idPrims : Prims := ⟨id, id, id⟩

def MAXSAMPLES : ℕ := 4096
def MAXTABLES : ℕ := 10000
def NUMFUNCTIONS : ℕ := 18

/-- Table of function names and reference values (lines 103-129).
Reference values that the C source computes with double arithmetic are
written as the corresponding exact rationals. -/
def functionTable : List (String × ℚ) :=
  [("quarterdisk", 1/2),
   ("fulldisk", 1/2),
   ("triangle", 1/2),
   ("quarterdiskramp", 505273/1000000),
   ("fulldiskramp", 505273/1000000),
   ("triangleramp", 1/2),
   ("quartergaussian", 55774629/100000000),
   ("fullgaussian", 851121/1000000),
   ("bilinear", 1/4),
   ("biquadratic", 1/9),
   ("sinxy", 0),
   ("sininvr", -(220242/1000000)),
   ("stepx", 1/M_PI),
   ("rampx", 3/10),
   ("lineary", 1/2),
   ("gaussianx", 74682413/100000000),
   ("siny", 2/M_PI),
   ("sin2x", 0)]

/-- Quarter-disk indicator (lines 145-153): 1 if x^2+y^2 < 2/pi, else 0. -/
def quarterdisk (x y : ℚ) : ℚ :=
  if x * x + y * y < 2 / M_PI then 1 else 0

/-- Disk indicator centered at (0.5,0.5) (lines 159-169). -/
def fulldisk (x y : ℚ) : ℚ :=
  if (x - 1/2) * (x - 1/2) + (y - 1/2) * (y - 1/2) < 1 / (2 * M_PI) then 1 else 0

/-- Triangle indicator (lines 173-177): 1 if x + y < 1, else 0. -/
def triangle (x y : ℚ) : ℚ :=
  if x + y < 1 then 1 else 0

/-- Quarter-disk with a linear ramp between radii 0.7 and 0.9 (lines 183-195). -/
def quarterdiskramp (P : Prims) (x y : ℚ) : ℚ :=
  let r := P.sqrt (x * x + y * y)
  if r ≤ 7/10 then 1
  else if r ≥ 9/10 then 0
  else 1 - (r - 7/10) / (9/10 - 7/10)

/-- Disk with a linear ramp between radii 0.35 and 0.45, centered at
(0.5,0.5) (lines 200-214). -/
def fulldiskramp (P : Prims) (x y : ℚ) : ℚ :=
  let r := P.sqrt ((x - 1/2) * (x - 1/2) + (y - 1/2) * (y - 1/2))
  if r ≤ 35/100 then 1
  else if r ≥ 45/100 then 0
  else 1 - (r - 35/100) / (45/100 - 35/100)

/-- Triangle ramp (lines 218-229). -/
def triangleramp (x y : ℚ) : ℚ :=
  let ymx := 5 * (y - x)
  (if ymx ≥ 1/2 then 1/2 else if ymx ≤ -(1/2) then -(1/2) else ymx) + 1/2

/-- 2D Gaussian e^(-x^2-y^2) (lines 233-237). -/
def quartergaussian2D (P : Prims) (x y : ℚ) : ℚ :=
  P.exp (-(x * x) - y * y)

/-- 2D Gaussian centered at (0.5,0.5) (lines 241-247). -/
def fullgaussian2D (P : Prims) (x y : ℚ) : ℚ :=
  P.exp (-((x - 1/2) * (x - 1/2)) - (y - 1/2) * (y - 1/2))

/-- Bilinear function f(x,y) = x*y (lines 251-255). -/
def bilinear (x y : ℚ) : ℚ := x * y

/-- Biquadratic function f(x,y) = x^2*y^2 (lines 259-263). -/
def biquadratic (x y : ℚ) : ℚ := x * x * y * y

/-- f(x,y) = sin(pi*(x+y)) (lines 267-271). -/
def sinxy (P : Prims) (x y : ℚ) : ℚ := P.sin (M_PI * (x + y))

/-- f(x,y) = sin(pi/r) with value 1 at r = 0 (lines 275-281). -/
def sininvr (P : Prims) (x y : ℚ) : ℚ :=
  let r := P.sqrt (x * x + y * y)
  if r > 0 then P.sin (M_PI / r) else 1

/-- 1D step function: 1 if x < 1/pi, else 0 (lines 285-289). -/
def step (x : ℚ) : ℚ :=
  if x < 1 / M_PI then 1 else 0

/-- 1D ramp between 0.2 and 0.4 (lines 293-304). -/
def ramp (x : ℚ) : ℚ :=
  if x ≤ 2/10 then 1
  else if x ≥ 4/10 then 0
  else 1 - (x - 2/10) / (4/10 - 2/10)

/-- Linear function f(x) = x (lines 308-312). -/
def linear (x : ℚ) : ℚ := x

/-- 1D Gaussian e^(-x^2) (lines 316-320). -/
def gaussian1D (P : Prims) (x : ℚ) : ℚ := P.exp (-(x * x))

/-- sin(pi*x) (lines 324-328). -/
def sinx (P : Prims) (x : ℚ) : ℚ := P.sin (M_PI * x)

/-- sin(2*pi*x) (lines 332-336). -/
def sin2x (P : Prims) (x : ℚ) : ℚ := P.sin (2 * M_PI * x)

/-- Dispatch on the function number, reading sample point s of table t
(lines 348-380).  The 1D arms read exactly the coordinate the source reads:
cases 12, 13, 15 and 17 read `sample.x`; cases 14 and 16 read `sample.y`. -/
def evaluateFunction (P : Prims) (functionNum : ℕ) (samplePoints : ℕ → ℕ → Point)
    (t s : ℕ) : ℚ :=
  let sample := samplePoints t s
  match functionNum with
  | 0 => quarterdisk sample.x sample.y
  | 1 => fulldisk sample.x sample.y
  | 2 => triangle sample.x sample.y
  | 3 => quarterdiskramp P sample.x sample.y
  | 4 => fulldiskramp P sample.x sample.y
  | 5 => triangleramp sample.x sample.y
  | 6 => quartergaussian2D P sample.x sample.y
  | 7 => fullgaussian2D P sample.x sample.y
  | 8 => bilinear sample.x sample.y
  | 9 => biquadratic sample.x sample.y
  | 10 => sinxy P sample.x sample.y
  | 11 => sininvr P sample.x sample.y
  | 12 => step sample.x
  | 13 => ramp sample.x
  | 14 => linear sample.y
  | 15 => gaussian1D P sample.x
  | 16 => sinx P sample.y
  | 17 => sin2x P sample.x
  | _ => 0

/-- The name-lookup loop of main (lines 400-413): index of the first table
entry whose name matches, or the length of the table when none matches. -/
def lookupFunction : List (String × ℚ) → String → ℕ
  | [], _ => 0
  | e :: rest, name => if e.1 = name then 0 else lookupFunction rest name + 1

/-! ## Convergence estimator (main, lines 447-474)

The estimator is parametrised by `e : ℕ → ℕ → ℚ`, the per-(sequence, sample)
integrand value, mirroring the call `evaluateFunction(functionNumber, t, s)`.
The per-sequence accumulator array `sumresults` is modelled as a function
`ℕ → ℚ` initialised to 0 (lines 448-450). -/

/-- The inner loop over sequences (lines 455-466), started at sequence index
t with k iterations remaining, threading the accumulator array, `sumerror`
and `maxerror`. -/
def innerLoop (e : ℕ → ℕ → ℚ) (r : ℚ) (s : ℕ) :
    ℕ → ℕ → (ℕ → ℚ) → ℚ → ℚ → (ℕ → ℚ) × ℚ × ℚ
  | _, 0, sums, sumerror, maxerror => (sums, sumerror, maxerror)
  | t, k + 1, sums, sumerror, maxerror =>
    let result := e t s
    let newsum := sums t + result
    let estimate := newsum / ((s : ℚ) + 1)
    let error := |estimate - r|
    innerLoop e r s (t + 1) k (Function.update sums t newsum)
      (sumerror + error) (max error maxerror)

/-- The outer loop over sample indices (lines 453-474), started at sample
index s with k indices remaining.  Returns the final accumulator array and
the list of (aveerror, maxerror) pairs, one per sample index. -/
def outerLoop (e : ℕ → ℕ → ℚ) (r : ℚ) (nT : ℕ) :
    ℕ → ℕ → (ℕ → ℚ) → (ℕ → ℚ) × List (ℚ × ℚ)
  | _, 0, sums => (sums, [])
  | s, k + 1, sums =>
    let inner := innerLoop e r s 0 nT sums 0 0
    let aveerror := inner.2.1 / (nT : ℚ)
    let rest := outerLoop e r nT (s + 1) k inner.1
    (rest.1, (aveerror, inner.2.2) :: rest.2)

/-- One whole estimator run: numSamples sample indices over numSequences
sequences, accumulators initialised to zero (lines 447-474). -/
def estimatorRun (e : ℕ → ℕ → ℚ) (r : ℚ) (nT nS : ℕ) : (ℕ → ℚ) × List (ℚ × ℚ) :=
  outerLoop e r nT 0 nS (fun _ => 0)

/-! ## Specification-side quantities (from the spec's algorithm wording) -/

/-- The running sum of integrand values of sequence t after sample index s
has been processed: samples 0..s inclusive. -/
def runningSum (e : ℕ → ℕ → ℚ) (t s : ℕ) : ℚ :=
  ∑ i ∈ Finset.range (s + 1), e t i

/-- Per-sequence absolute error at sample index s:
|runningSum/(s+1) - reference|. -/
def seqError (e : ℕ → ℕ → ℚ) (r : ℚ) (t s : ℕ) : ℚ :=
  |runningSum e t s / ((s : ℚ) + 1) - r|

/-- The accumulator array after the first S sample indices: sequences below
nT hold the sum of their first S integrand values, others still hold 0. -/
def sumsAfter (e : ℕ → ℕ → ℚ) (nT S : ℕ) : ℕ → ℚ :=
  fun t => if t < nT then ∑ i ∈ Finset.range S, e t i else 0

/-- Left fold of max over a list of indices, the shape in which the inner
loop accumulates `maxerror`. -/
def foldlMax (g : ℕ → ℚ) (init : ℚ) (l : List ℕ) : ℚ :=
  l.foldl (fun m j => max (g j) m) init

/-! ## Reporter (lines 469-473) -/

/-- One fractional digit of the fixed-point rendering: digit j (counting
from the least significant) of m mod 10^6. -/
def fracDigit6 (m j : ℕ) : Char :=
  Nat.digitChar (m % 1000000 / 10 ^ j % 10)

/-- Model of printf("%f", q): fixed-point with 6 fractional digits, the
exact rational rounded to the nearest multiple of 10^-6. -/
def fmt6 (q : ℚ) : String :=
  let m : ℕ := (round (|q| * 1000000)).toNat
  (if q < 0 then "-" else "") ++ toString (m / 1000000) ++ "." ++
    String.mk [fracDigit6 m 5, fracDigit6 m 4, fracDigit6 m 3,
               fracDigit6 m 2, fracDigit6 m 1, fracDigit6 m 0]

/-- One output line of printf("%i %f\n", n, q) (line 471), without the
terminating newline. -/
def fmtLine (n : ℕ) (q : ℚ) : String :=
  toString n ++ " " ++ fmt6 q

/-- Reporter loop body: starting at sample index s, emit a line for each
later index whose 1-based count is a multiple of 4 (lines 469-473). -/
def reportAux : ℕ → List (ℚ × ℚ) → List String
  | _, [] => []
  | s, p :: rest =>
    (if (s + 1) % 4 = 0 then [fmtLine (s + 1) p.1] else []) ++ reportAux (s + 1) rest

/-- The full report for an estimator result list. -/
def reportOf (pairs : List (ℚ × ℚ)) : List String := reportAux 0 pairs

/-! ## Sequence corpus reader (skipLine lines 133-139, main lines 424-445) -/

/-- In-memory sample table, mirroring the zero-initialised global array
`Point samplePoints[MAXTABLES][MAXSAMPLES]` (line 95). -/
abbrev Table : Type := ℕ → ℕ → Point

/-- Write one table slot, as in lines 440-441. -/
def writeTable (tab : Table) (t s : ℕ) (p : Point) : Table :=
  fun t' s' => if t' = t ∧ s' = s then p else tab t' s'

/-- skipLine (lines 133-139): consume characters through the first newline.
At end of input, fscanf "%c" fails and stops assigning c, so the do-while
condition tests an unchanged byte and the loop never exits; this divergence
is modelled as `none`. -/
def skipLine : List Char → Option (List Char)
  | [] => none
  | c :: cs => if c = '\n' then some cs else skipLine cs

/-- The whitespace class skipped by fscanf conversions. -/
def isSpace (c : Char) : Bool :=
  c = ' ' || c = '\t' || c = '\n' || c = '\r' || c = '\x0b' || c = '\x0c'

/-- Drop leading scanf whitespace. -/
def skipWs : List Char → List Char
  | [] => []
  | c :: cs => if isSpace c then skipWs cs else c :: cs

/-- Decimal digit value of a character, if it is a digit. -/
def digitVal? (c : Char) : Option ℕ :=
  if '0' ≤ c ∧ c ≤ '9' then some (c.toNat - '0'.toNat) else none

/-- Take a maximal run of decimal digits. -/
def takeDigits : List Char → List ℕ × List Char
  | [] => ([], [])
  | c :: cs =>
    match digitVal? c with
    | some d => let p := takeDigits cs; (d :: p.1, p.2)
    | none => ([], c :: cs)

/-- Value of a most-significant-first digit list. -/
def digitsToNat (ds : List ℕ) : ℕ :=
  ds.foldl (fun acc d => 10 * acc + d) 0

/-- The rational value denoted by a sign and the integer and fraction digit
strings of a decimal literal, as converted by %lf. -/
def ratVal (sign : ℚ) (ip fp : List ℕ) : ℚ :=
  sign * ((digitsToNat ip : ℚ) + (digitsToNat fp : ℚ) / (10 ^ fp.length : ℚ))

/-- Models the number syntax accepted by fscanf %lf for the plain decimal
numbers of the corpus format: optional sign, integer digits, optional '.'
and fraction digits.  Fails when no digit is present. -/
def parseNum (cs : List Char) : Option (ℚ × List Char) :=
  let sp : ℚ × List Char :=
    match cs with
    | '-' :: rest => (-1, rest)
    | '+' :: rest => (1, rest)
    | _ => (1, cs)
  let ip := takeDigits sp.2
  let fp : List ℕ × List Char :=
    match ip.2 with
    | '.' :: rest => takeDigits rest
    | _ => ([], ip.2)
  if ip.1 = [] ∧ fp.1 = [] then none
  else some (ratVal sp.1 ip.1 fp.1, fp.2)

/-- Models ok = fscanf(fd, "%lf %lf", &x, &y) (line 438): the conversion
count (-1 exactly when end of input is reached before the first conversion),
the optionally converted values, and the rest of the stream. -/
def scanPair (cs : List Char) : Int × Option ℚ × Option ℚ × List Char :=
  match skipWs cs with
  | [] => (-1, none, none, [])
  | c :: rest =>
    match parseNum (c :: rest) with
    | none => (0, none, none, c :: rest)
    | some (xv, cs2) =>
      match skipWs cs2 with
      | [] => (1, some xv, none, [])
      | c2 :: rest2 =>
        match parseNum (c2 :: rest2) with
        | none => (1, some xv, none, c2 :: rest2)
        | some (yv, cs4) => (2, some xv, some yv, cs4)

/-- The inner sample-reading loop (lines 437-442) for sequence t, at sample
index s with k samples remaining, threading the stale values of the C
variables x and y.  On ok == -1 the loop breaks; on any other return value
(including a conversion failure, ok == 0 or 1) the slot is written with the
current x and y and the loop continues. -/
def readSamples (t : ℕ) : ℕ → ℕ → ℚ → ℚ → Table → List Char →
    Table × List Char × ℚ × ℚ
  | _, 0, x, y, tab, cs => (tab, cs, x, y)
  | s, k + 1, x, y, tab, cs =>
    let r := scanPair cs
    if r.1 = -1 then (tab, r.2.2.2, x, y)
    else
      let x' := r.2.1.getD x
      let y' := r.2.2.1.getD y
      readSamples t (s + 1) k x' y' (writeTable tab t s ⟨x', y'⟩) r.2.2.2

/-- The outer sequence-reading loop (lines 436-445): k sequences remaining,
next sequence index t.  After each sequence's samples, two skipLine calls
run (line 444); if either diverges the whole read diverges. -/
def readSeqs (numSamples : ℕ) : ℕ → ℕ → ℚ → ℚ → Table → List Char → Option Table
  | 0, _, _, _, tab, _ => some tab
  | k + 1, t, x, y, tab, cs =>
    let r := readSamples t 0 numSamples x y tab cs
    match skipLine r.2.1 with
    | none => none
    | some cs2 =>
      match skipLine cs2 with
      | none => none
      | some cs3 => readSeqs numSamples k (t + 1) r.2.2.1 r.2.2.2 r.1 cs3

/-- The corpus reading phase (lines 424-445): skip 3 header lines, then read
numSequences sequences of numSamples pairs into the zero-initialised global
table.  `none` models non-termination of a skipLine call at end of input.
The C locals x and y start indeterminate; they are modelled as 0, which no
claim depends on (both are overwritten before first use on the inputs
considered). -/
def readTables (numSamples numSequences : ℕ) (cs : List Char) : Option Table := do
  let cs1 ← skipLine cs
  let cs2 ← skipLine cs1
  let cs3 ← skipLine cs2
  readSeqs numSamples numSequences 0 0 0 (fun _ _ => ⟨0, 0⟩) cs3

/-! ## Top-level run (main, lines 384-477) after the corpus is in memory -/

/-- Whether a samplePoints access is within the declared bounds of the
global array (line 95). -/
def inBounds (t s : ℕ) : Prop := t < MAXTABLES ∧ s < MAXSAMPLES

instance (t s : ℕ) : Decidable (inBounds t s) := by
  unfold inBounds
  infer_instance

/-- The function-name resolution and output phases of main (lines 400-414
and 447-476), given the in-memory sample table: exit status together with
the emitted lines (the diagnostic on stdout for an unknown name, or the
error table).  Mirrors main after argument parsing and file reading. -/
def mainRun (P : Prims) (functionName : String) (pts : ℕ → ℕ → Point)
    (numSamples numSequences : ℕ) : ℕ × List String :=
  let i := lookupFunction functionTable functionName
  if i = NUMFUNCTIONS then
    (1, ["Unknown function: '" ++ functionName ++ "'"])
  else
    let reference := (functionTable.getD i ("", 0)).2
    (0, reportOf (estimatorRun (fun t s => evaluateFunction P i pts t s)
      reference numSequences numSamples).2)

/-! ## Concrete inputs used by witnesses and counterexamples -/

/-- A corpus where every point of every sequence is the centroid (0.5, 0.5). -/
def centroidPts : ℕ → ℕ → Point := fun _ _ => ⟨1/2, 1/2⟩

/-- A single sequence holding the four corners of the unit square. -/
def cornerPts : ℕ → ℕ → Point :=
  fun _ s => ([⟨0, 0⟩, ⟨1, 0⟩, ⟨0, 1⟩, ⟨1, 1⟩] : List Point).getD s ⟨0, 0⟩

/-- A corpus file with a 3-line header and a sequence holding only 2 sample
pairs, followed by two comment lines: "h\nh\nh\n0.5 0.5\n0.25 0.75\n// c\n// d\n". -/
def c3chars : List Char :=
  ['h', '\n', 'h', '\n', 'h', '\n',
   '0', '.', '5', ' ', '0', '.', '5', '\n',
   '0', '.', '2', '5', ' ', '0', '.', '7', '5', '\n',
   '/', '/', ' ', 'c', '\n',
   '/', '/', ' ', 'd', '\n']

/-- A corpus file with a 3-line header and only 2 sample pairs, ending at
the second pair: "h\nh\nh\n0.5 0.5\n0.25 0.75\n". -/
def c4chars : List Char :=
  ['h', '\n', 'h', '\n', 'h', '\n',
   '0', '.', '5', ' ', '0', '.', '5', '\n',
   '0', '.', '2', '5', ' ', '0', '.', '7', '5', '\n']

/-- The table the reader produces from `c3chars` with numSamples = 4 and
numSequences = 1: the two parsed pairs, then the second pair duplicated into
slots 2 and 3 because fscanf returns 0 (not EOF) at the comment line and the
loop keeps storing the stale x and y. -/
def c3tab : Table :=
  writeTable (writeTable (writeTable (writeTable (fun _ _ => ⟨0, 0⟩)
    0 0 ⟨ratVal 1 [0] [5], ratVal 1 [0] [5]⟩)
    0 1 ⟨ratVal 1 [0] [2, 5], ratVal 1 [0] [7, 5]⟩)
    0 2 ⟨ratVal 1 [0] [2, 5], ratVal 1 [0] [7, 5]⟩)
    0 3 ⟨ratVal 1 [0] [2, 5], ratVal 1 [0] [7, 5]⟩

/-! ## Helper lemmas about the fold that accumulates maxerror -/

lemma foldlMax_congr (g g' : ℕ → ℚ) (l : List ℕ) (init : ℚ)
    (h : ∀ a ∈ l, g a = g' a) : foldlMax g init l = foldlMax g' init l := by
  induction l generalizing init with
  | nil => rfl
  | cons a l ih =>
    simp only [foldlMax, List.foldl_cons] at *
    rw [h a (by simp)]
    exact ih _ (fun b hb => h b (List.mem_cons_of_mem _ hb))

lemma init_le_foldlMax (g : ℕ → ℚ) (init : ℚ) (l : List ℕ) :
    init ≤ foldlMax g init l := by
  induction l generalizing init with
  | nil => simp [foldlMax]
  | cons a l ih =>
    simp only [foldlMax, List.foldl_cons]
    exact le_trans (le_max_right _ _) (ih (max (g a) init))

lemma le_foldlMax (g : ℕ → ℚ) (init : ℚ) (l : List ℕ) :
    ∀ a ∈ l, g a ≤ foldlMax g init l := by
  induction l generalizing init with
  | nil => simp
  | cons b l ih =>
    intro a ha
    simp only [List.mem_cons] at ha
    simp only [foldlMax, List.foldl_cons]
    rcases ha with rfl | ha
    · exact le_trans (le_max_left _ _) (init_le_foldlMax g _ l)
    · exact ih (max (g b) init) a ha

lemma foldlMax_eq_init_or_mem (g : ℕ → ℚ) (init : ℚ) (l : List ℕ) :
    foldlMax g init l = init ∨ ∃ a ∈ l, foldlMax g init l = g a := by
  induction l generalizing init with
  | nil => exact Or.inl rfl
  | cons b l ih =>
    simp only [foldlMax, List.foldl_cons]
    rcases ih (max (g b) init) with h | ⟨a, ha, h⟩
    · rcases max_choice (g b) init with hm | hm
      · exact Or.inr ⟨b, by simp, by rw [foldlMax] at h; rw [h, hm]⟩
      · exact Or.inl (by rw [foldlMax] at h; rw [h, hm])
    · exact Or.inr ⟨a, by simp [ha], h⟩

lemma foldlMax_const_zero (l : List ℕ) : foldlMax (fun _ => (0 : ℚ)) 0 l = 0 := by
  induction l with
  | nil => rfl
  | cons a l ih =>
    simp only [foldlMax, List.foldl_cons, max_self] at *
    exact ih

lemma listSum_range_eq (f : ℕ → ℚ) (n : ℕ) :
    ((List.range n).map f).sum = ∑ j ∈ Finset.range n, f j := by
  induction n with
  | zero => simp
  | succ n ih => rw [List.range_succ, Finset.sum_range_succ, List.map_append]; simp [ih]

/-! ## Lookup-loop lemmas -/

lemma lookupFunction_eq_length (l : List (String × ℚ)) (name : String)
    (h : name ∉ l.map Prod.fst) : lookupFunction l name = l.length := by
  induction l with
  | nil => rfl
  | cons e rest ih =>
    simp only [List.map_cons, List.mem_cons, not_or] at h
    rw [lookupFunction, if_neg (fun he => h.1 he.symm), ih h.2, List.length_cons]

lemma lookupFunction_mem (l : List (String × ℚ)) (name : String)
    (h : name ∈ l.map Prod.fst) :
    lookupFunction l name < l.length
      ∧ (l.getD (lookupFunction l name) ("", 0)).1 = name := by
  induction l with
  | nil => simp at h
  | cons e rest ih =>
    by_cases he : e.1 = name
    · rw [lookupFunction, if_pos he]
      exact ⟨by simp, he⟩
    · have h' : name ∈ rest.map Prod.fst := by
        simp only [List.map_cons, List.mem_cons] at h
        rcases h with h | h
        · exact absurd h.symm he
        · exact h
      obtain ⟨h1, h2⟩ := ih h'
      rw [lookupFunction, if_neg he]
      refine ⟨?_, ?_⟩
      · rw [List.length_cons]
        omega
      · rw [List.getD_cons_succ]
        exact h2

/-! ## Reporter lemmas -/

lemma digitChar_mod_isDigit (x : ℕ) : (Nat.digitChar (x % 10)).isDigit = true := by
  have h : x % 10 < 10 := Nat.mod_lt _ (by norm_num)
  have hall : ∀ m, m < 10 → (Nat.digitChar m).isDigit = true := by decide
  exact hall _ h

lemma fmt6_parts (q : ℚ) : ∃ a b : String, fmt6 q = a ++ "." ++ b ∧ b.length = 6
    ∧ ∀ c ∈ b.data, c.isDigit = true := by
  refine ⟨(if q < 0 then "-" else "")
      ++ toString ((round (|q| * 1000000)).toNat / 1000000),
    String.mk [fracDigit6 ((round (|q| * 1000000)).toNat) 5,
      fracDigit6 ((round (|q| * 1000000)).toNat) 4,
      fracDigit6 ((round (|q| * 1000000)).toNat) 3,
      fracDigit6 ((round (|q| * 1000000)).toNat) 2,
      fracDigit6 ((round (|q| * 1000000)).toNat) 1,
      fracDigit6 ((round (|q| * 1000000)).toNat) 0], rfl, rfl, ?_⟩
  intro c hc
  simp only [String.data, List.mem_cons, List.not_mem_nil, or_false] at hc
  rcases hc with rfl | rfl | rfl | rfl | rfl | rfl
  all_goals exact digitChar_mod_isDigit _

lemma reportAux_chunks : ∀ (n s : ℕ) (pairs : List (ℚ × ℚ)), s % 4 = 0 →
    pairs.length = 4 * n →
    reportAux s pairs = (List.range n).map
      (fun k => fmtLine (s + 4 * k + 4) ((pairs.getD (4 * k + 3) (0, 0)).1)) := by
  intro n
  induction n with
  | zero =>
    intro s pairs _ hlen
    have hnil : pairs = [] := List.length_eq_zero.mp (by omega)
    subst hnil
    rfl
  | succ n ih =>
    intro s pairs hs hlen
    rcases pairs with _ | ⟨a, _ | ⟨b, _ | ⟨c, _ | ⟨d, rest⟩⟩⟩⟩
    · simp only [List.length_nil] at hlen
      omega
    · simp only [List.length_cons, List.length_nil] at hlen
      omega
    · simp only [List.length_cons, List.length_nil] at hlen
      omega
    · simp only [List.length_cons, List.length_nil] at hlen
      omega
    simp only [List.length_cons] at hlen
    have hrest : rest.length = 4 * n := by omega
    simp only [reportAux]
    rw [if_neg (show ¬(s + 1) % 4 = 0 by omega),
        if_neg (show ¬(s + 1 + 1) % 4 = 0 by omega),
        if_neg (show ¬(s + 1 + 1 + 1) % 4 = 0 by omega),
        if_pos (show (s + 1 + 1 + 1 + 1) % 4 = 0 by omega)]
    simp only [List.nil_append, List.cons_append, List.singleton_append]
    rw [ih (s + 1 + 1 + 1 + 1) rest (by omega) hrest]
    rw [List.range_succ_eq_map, List.map_cons, List.map_map]
    have hhead : fmtLine (s + 1 + 1 + 1 + 1) d.1
        = fmtLine (s + 4 * 0 + 4) (((a :: b :: c :: d :: rest).getD (4 * 0 + 3) (0, 0)).1) := by
      have h0 : 4 * 0 + 3 = 0 + 1 + 1 + 1 := by omega
      rw [show s + 4 * 0 + 4 = s + 1 + 1 + 1 + 1 from by omega, h0,
        List.getD_cons_succ, List.getD_cons_succ, List.getD_cons_succ, List.getD_cons_zero]
    rw [hhead]
    congr 1
    apply List.map_congr_left
    intro k _
    simp only [Function.comp_apply]
    have hidx : 4 * (k + 1) + 3 = 4 * k + 3 + 1 + 1 + 1 + 1 := by omega
    rw [show s + 4 * (k + 1) + 4 = s + 1 + 1 + 1 + 1 + 4 * k + 4 from by omega, hidx,
      List.getD_cons_succ, List.getD_cons_succ, List.getD_cons_succ, List.getD_cons_succ]

/-! ## Characterisation of the inner loop -/

lemma innerLoop_fst (e : ℕ → ℕ → ℚ) (r : ℚ) (s : ℕ) :
    ∀ (k t : ℕ) (sums : ℕ → ℚ) (se me : ℚ),
      (innerLoop e r s t k sums se me).1
        = fun u => if t ≤ u ∧ u < t + k then sums u + e u s else sums u := by
  intro k
  induction k with
  | zero =>
    intro t sums se me
    funext u
    rw [innerLoop, if_neg (by omega)]
  | succ k ih =>
    intro t sums se me
    simp only [innerLoop]
    rw [ih]
    funext u
    by_cases hu : u = t
    · subst hu
      rw [if_neg (by omega), if_pos (by omega), Function.update_same]
    · rw [Function.update_noteq hu]
      by_cases hcond : t + 1 ≤ u ∧ u < t + 1 + k
      · rw [if_pos hcond, if_pos (by omega)]
      · rw [if_neg hcond, if_neg (by omega)]

lemma innerLoop_sumerror (e : ℕ → ℕ → ℚ) (r : ℚ) (s : ℕ) :
    ∀ (k t : ℕ) (sums : ℕ → ℚ) (se me : ℚ),
      (innerLoop e r s t k sums se me).2.1
        = se + ((List.range' t k).map
            (fun u => |(sums u + e u s) / ((s : ℚ) + 1) - r|)).sum := by
  intro k
  induction k with
  | zero => intro t sums se me; simp [innerLoop]
  | succ k ih =>
    intro t sums se me
    simp only [innerLoop]
    rw [ih]
    have hmap : (List.range' (t + 1) k).map
        (fun u => |(Function.update sums t (sums t + e t s) u + e u s) / ((s : ℚ) + 1) - r|)
        = (List.range' (t + 1) k).map
            (fun u => |(sums u + e u s) / ((s : ℚ) + 1) - r|) := by
      apply List.map_congr_left
      intro a ha
      have : t + 1 ≤ a := (List.mem_range'_1.mp ha).1
      rw [Function.update_noteq (by omega)]
    rw [hmap, List.range'_succ, List.map_cons, List.sum_cons]
    ring

lemma innerLoop_maxerror (e : ℕ → ℕ → ℚ) (r : ℚ) (s : ℕ) :
    ∀ (k t : ℕ) (sums : ℕ → ℚ) (se me : ℚ),
      (innerLoop e r s t k sums se me).2.2
        = foldlMax (fun u => |(sums u + e u s) / ((s : ℚ) + 1) - r|) me
            (List.range' t k) := by
  intro k
  induction k with
  | zero => intro t sums se me; simp [innerLoop, foldlMax]
  | succ k ih =>
    intro t sums se me
    simp only [innerLoop]
    rw [ih]
    have hcongr : foldlMax
        (fun u => |(Function.update sums t (sums t + e t s) u + e u s) / ((s : ℚ) + 1) - r|)
        (max (|(sums t + e t s) / ((s : ℚ) + 1) - r|) me) (List.range' (t + 1) k)
        = foldlMax (fun u => |(sums u + e u s) / ((s : ℚ) + 1) - r|)
            (max (|(sums t + e t s) / ((s : ℚ) + 1) - r|) me) (List.range' (t + 1) k) := by
      apply foldlMax_congr
      intro a ha
      have : t + 1 ≤ a := (List.mem_range'_1.mp ha).1
      rw [Function.update_noteq (by omega)]
    rw [hcongr, List.range'_succ]
    rfl

/-! ## Characterisation of the outer loop and of a whole estimator run -/

lemma outerLoop_eq (e : ℕ → ℕ → ℚ) (r : ℚ) (nT : ℕ) :
    ∀ (k s : ℕ),
      outerLoop e r nT s k (sumsAfter e nT s)
        = (sumsAfter e nT (s + k),
           (List.range' s k).map (fun j =>
             ((∑ t ∈ Finset.range nT, seqError e r t j) / (nT : ℚ),
              foldlMax (fun t => seqError e r t j) 0 (List.range nT)))) := by
  intro k
  induction k with
  | zero => intro s; simp [outerLoop]
  | succ k ih =>
    intro s
    simp only [outerLoop]
    have hfst : (innerLoop e r s 0 nT (sumsAfter e nT s) 0 0).1
        = sumsAfter e nT (s + 1) := by
      rw [innerLoop_fst]
      funext u
      by_cases hu : u < nT
      · rw [if_pos (by omega)]
        simp only [sumsAfter, if_pos hu]
        rw [Finset.sum_range_succ]
      · rw [if_neg (by omega)]
        simp only [sumsAfter, if_neg hu]
    have hterm : ∀ u ∈ List.range' 0 nT,
        |(sumsAfter e nT s u + e u s) / ((s : ℚ) + 1) - r| = seqError e r u s := by
      intro u hu
      have hu' : u < nT := by
        have := (List.mem_range'_1.mp hu).2
        omega
      simp only [sumsAfter, if_pos hu', seqError, runningSum, Finset.sum_range_succ]
    have hsum : (innerLoop e r s 0 nT (sumsAfter e nT s) 0 0).2.1
        = ∑ t ∈ Finset.range nT, seqError e r t s := by
      rw [innerLoop_sumerror]
      rw [List.map_congr_left hterm]
      rw [← List.range_eq_range', listSum_range_eq, zero_add]
    have hmax : (innerLoop e r s 0 nT (sumsAfter e nT s) 0 0).2.2
        = foldlMax (fun t => seqError e r t s) 0 (List.range nT) := by
      rw [innerLoop_maxerror]
      rw [foldlMax_congr _ _ _ _ hterm, ← List.range_eq_range']
    rw [hfst, hsum, hmax, ih (s + 1)]
    rw [List.range'_succ, List.map_cons]
    have : s + 1 + k = s + (k + 1) := by omega
    rw [this]

lemma estimatorRun_eq (e : ℕ → ℕ → ℚ) (r : ℚ) (nT nS : ℕ) :
    estimatorRun e r nT nS
      = (sumsAfter e nT nS,
         (List.range nS).map (fun j =>
           ((∑ t ∈ Finset.range nT, seqError e r t j) / (nT : ℚ),
            foldlMax (fun t => seqError e r t j) 0 (List.range nT)))) := by
  have hinit : (fun _ => (0 : ℚ)) = sumsAfter e nT 0 := by
    funext t
    simp [sumsAfter]
  rw [estimatorRun, hinit, outerLoop_eq, Nat.zero_add, ← List.range_eq_range']

lemma seqError_congr (e e' : ℕ → ℕ → ℚ) (r : ℚ) (t s : ℕ)
    (h : ∀ i, i ≤ s → e t i = e' t i) : seqError e r t s = seqError e' r t s := by
  have hsum : (∑ i ∈ Finset.range (s + 1), e t i) = ∑ i ∈ Finset.range (s + 1), e' t i :=
    Finset.sum_congr rfl fun i hi => h i (Nat.lt_succ_iff.mp (Finset.mem_range.mp hi))
  unfold seqError runningSum
  rw [hsum]

lemma estimatorRun_congr (e e' : ℕ → ℕ → ℚ) (r : ℚ) (nT nS : ℕ)
    (h : ∀ t s, t < nT → s < nS → e t s = e' t s) :
    estimatorRun e r nT nS = estimatorRun e' r nT nS := by
  rw [estimatorRun_eq, estimatorRun_eq]
  have hseq : ∀ t j, t < nT → j < nS → seqError e r t j = seqError e' r t j := by
    intro t j ht hj
    exact seqError_congr e e' r t j fun i hi => h t i ht (lt_of_le_of_lt hi hj)
  congr 1
  · funext t
    simp only [sumsAfter]
    by_cases ht : t < nT
    · rw [if_pos ht, if_pos ht]
      exact Finset.sum_congr rfl fun i hi => h t i ht (Finset.mem_range.mp hi)
    · rw [if_neg ht, if_neg ht]
  · apply List.map_congr_left
    intro j hj
    have hjS : j < nS := List.mem_range.mp hj
    have hsum : (∑ t ∈ Finset.range nT, seqError e r t j)
        = ∑ t ∈ Finset.range nT, seqError e' r t j :=
      Finset.sum_congr rfl fun t ht => hseq t j (Finset.mem_range.mp ht) hjS
    have hfold : foldlMax (fun t => seqError e r t j) 0 (List.range nT)
        = foldlMax (fun t => seqError e' r t j) 0 (List.range nT) :=
      foldlMax_congr _ _ _ _ fun t ht => hseq t j (List.mem_range.mp ht) hjS
    rw [hsum, hfold]

/-! ## Reader frame lemmas: which slots the reading phase can write -/

lemma readSamples_frame (t : ℕ) : ∀ (k s : ℕ) (x y : ℚ) (tab : Table) (cs : List Char)
    (t' s' : ℕ), (t' ≠ t ∨ s' < s ∨ s + k ≤ s') →
    (readSamples t s k x y tab cs).1 t' s' = tab t' s' := by
  intro k
  induction k with
  | zero => intro s x y tab cs t' s' _; rfl
  | succ k ih =>
    intro s x y tab cs t' s' hcond
    simp only [readSamples]
    by_cases hok : (scanPair cs).1 = -1
    · rw [if_pos hok]
    · rw [if_neg hok]
      rw [ih (s + 1) _ _ _ _ t' s' (by omega)]
      simp only [writeTable]
      rw [if_neg ?_]
      rintro ⟨rfl, rfl⟩
      rcases hcond with h1 | h2 | h3
      · exact h1 rfl
      · omega
      · omega

lemma readSeqs_frame (nS : ℕ) : ∀ (k t : ℕ) (x y : ℚ) (tab : Table) (cs : List Char)
    (tab' : Table), readSeqs nS k t x y tab cs = some tab' →
    ∀ t' s' : ℕ, (t' < t ∨ t + k ≤ t' ∨ nS ≤ s') → tab' t' s' = tab t' s' := by
  intro k
  induction k with
  | zero =>
    intro t x y tab cs tab' hread t' s' _
    simp only [readSeqs, Option.some.injEq] at hread
    rw [← hread]
  | succ k ih =>
    intro t x y tab cs tab' hread t' s' hcond
    simp only [readSeqs] at hread
    split at hread
    · exact absurd hread (by simp)
    · split at hread
      · exact absurd hread (by simp)
      · rw [ih (t + 1) _ _ _ _ tab' hread t' s' (by omega)]
        exact readSamples_frame t nS 0 x y tab cs t' s' (by omega)

lemma readTables_frame (nS nT : ℕ) (cs : List Char) (tab : Table)
    (h : readTables nS nT cs = some tab) :
    ∀ t s : ℕ, ¬(t < nT ∧ s < nS) → tab t s = ⟨0, 0⟩ := by
  intro t s hts
  simp only [readTables] at h
  rcases h1 : skipLine cs with _ | cs1 <;> rw [h1] at h
  · simp at h
  simp only [Option.bind_eq_bind, Option.some_bind] at h
  rcases h2 : skipLine cs1 with _ | cs2 <;> rw [h2] at h
  · simp at h
  simp only [Option.bind_eq_bind, Option.some_bind] at h
  rcases h3 : skipLine cs2 with _ | cs3 <;> rw [h3] at h
  · simp at h
  simp only [Option.bind_eq_bind, Option.some_bind] at h
  rw [readSeqs_frame nS nT 0 0 0 (fun _ _ => ⟨0, 0⟩) cs3 tab h t s (by omega)]

lemma map_range_getD {α : Type} (F : ℕ → α) (nS s : ℕ) (hs : s < nS) (d : α) :
    ((List.range nS).map F).getD s d = F s := by
  rw [List.getD_eq_getElem?_getD, List.getElem?_map, List.getElem?_range hs]
  rfl

lemma seqError_nonneg (e : ℕ → ℕ → ℚ) (r : ℚ) (t s : ℕ) : 0 ≤ seqError e r t s := by
  simp only [seqError]
  exact abs_nonneg _

/-- C1: for every corpus and integrand, at each sample index s the estimator
evaluates the integrand at sample s of each sequence t, accumulates it into
that sequence's running sum, forms estimate = runningSum/(s+1) and
error = |estimate - referenceValue|, and reports averageError as the mean of
the numSequences per-sequence errors and maxError as their maximum. -/
theorem estimatorRun_checkpoint_spec (e : ℕ → ℕ → ℚ) (r : ℚ) (nT nS s : ℕ)
    (hs : s < nS) (hT : 0 < nT) :
    ((estimatorRun e r nT nS).2.getD s (0, 0)).1
        = (∑ t ∈ Finset.range nT, seqError e r t s) / (nT : ℚ)
      ∧ (∀ t, t < nT → seqError e r t s ≤ ((estimatorRun e r nT nS).2.getD s (0, 0)).2)
      ∧ (∃ t, t < nT ∧ seqError e r t s = ((estimatorRun e r nT nS).2.getD s (0, 0)).2) := by
  simp only [estimatorRun_eq]
  rw [map_range_getD _ _ _ hs]
  refine ⟨rfl, ?_, ?_⟩
  · intro t ht
    exact le_foldlMax _ _ _ t (List.mem_range.mpr ht)
  · rcases foldlMax_eq_init_or_mem (fun t => seqError e r t s) 0 (List.range nT)
      with h0 | ⟨a, ha, hEq⟩
    · refine ⟨0, hT, ?_⟩
      rw [h0]
      have h1 : seqError e r 0 s ≤ 0 :=
        h0 ▸ le_foldlMax (fun t => seqError e r t s) 0 (List.range nT) 0 (List.mem_range.mpr hT)
      exact le_antisymm h1 (seqError_nonneg e r 0 s)
    · exact ⟨a, List.mem_range.mp ha, hEq.symm⟩

/-- Witness for C1 at a concrete input: one sequence, one sample, constant
integrand 1 with reference value 0. -/
theorem estimatorRun_checkpoint_spec_witness :
    0 < 1 ∧ 0 < 1 ∧
      (((estimatorRun (fun _ _ => (1 : ℚ)) 0 1 1).2.getD 0 (0, 0)).1
          = (∑ t ∈ Finset.range 1, seqError (fun _ _ => (1 : ℚ)) 0 t 0) / (1 : ℚ)
        ∧ (∀ t, t < 1 → seqError (fun _ _ => (1 : ℚ)) 0 t 0
            ≤ ((estimatorRun (fun _ _ => (1 : ℚ)) 0 1 1).2.getD 0 (0, 0)).2)
        ∧ (∃ t, t < 1 ∧ seqError (fun _ _ => (1 : ℚ)) 0 t 0
            = ((estimatorRun (fun _ _ => (1 : ℚ)) 0 1 1).2.getD 0 (0, 0)).2)) :=
  ⟨by decide, by decide,
   estimatorRun_checkpoint_spec (fun _ _ => 1) 0 1 1 0 (by decide) (by decide)⟩

/-- C7: for every integrand, corpus and sample index, the reported
averageError is nonnegative and at most the maxError computed at the same
sample index. -/
theorem estimatorRun_avg_nonneg_le_max (e : ℕ → ℕ → ℚ) (r : ℚ) (nT nS : ℕ)
    (hT : 0 < nT) :
    ∀ p ∈ (estimatorRun e r nT nS).2, 0 ≤ p.1 ∧ p.1 ≤ p.2 := by
  simp only [estimatorRun_eq]
  rintro p hp
  rw [List.mem_map] at hp
  obtain ⟨j, _, rfl⟩ := hp
  have hTQ : (0 : ℚ) < (nT : ℚ) := by exact_mod_cast hT
  constructor
  · exact div_nonneg (Finset.sum_nonneg fun t _ => seqError_nonneg e r t j) (le_of_lt hTQ)
  · rw [div_le_iff₀ hTQ]
    calc ∑ t ∈ Finset.range nT, seqError e r t j
        ≤ ∑ _t ∈ Finset.range nT,
            foldlMax (fun t => seqError e r t j) 0 (List.range nT) :=
          Finset.sum_le_sum fun t ht =>
            le_foldlMax _ _ _ t (List.mem_range.mpr (Finset.mem_range.mp ht))
      _ = foldlMax (fun t => seqError e r t j) 0 (List.range nT) * (nT : ℚ) := by
          rw [Finset.sum_const, Finset.card_range, nsmul_eq_mul, mul_comm]

/-- Witness for C7 at a concrete input. -/
theorem estimatorRun_avg_nonneg_le_max_witness :
    0 < 1 ∧
      ∀ p ∈ (estimatorRun (fun _ _ => (1 : ℚ)) 0 1 1).2, 0 ≤ p.1 ∧ p.1 ≤ p.2 :=
  ⟨by decide, estimatorRun_avg_nonneg_le_max (fun _ _ => 1) 0 1 1 (by decide)⟩

/-- C8: for a corpus in which every point of every sequence is the centroid
(0.5, 0.5), running the estimator with the bilinear integrand (f(x,y) = xy,
reference value 0.25) yields estimate 0.25 at every sample count, hence
error 0 and averageError 0 (and maxError 0) at every checkpoint. -/
theorem estimatorRun_centroid_bilinear (P : Prims) (nT nS : ℕ) :
    functionTable.getD 8 ("", 0) = ("bilinear", 1/4)
  ∧ (∀ t s : ℕ,
      runningSum (fun t s => evaluateFunction P 8 centroidPts t s) t s / ((s : ℚ) + 1)
        = 1/4)
  ∧ (estimatorRun (fun t s => evaluateFunction P 8 centroidPts t s) (1/4) nT nS).2
      = List.replicate nS ((0 : ℚ), (0 : ℚ)) := by
  have heval : ∀ t s : ℕ, evaluateFunction P 8 centroidPts t s = 1/4 := by
    intro t s
    norm_num [evaluateFunction, centroidPts, bilinear]
  have hdiv : ∀ t s : ℕ,
      runningSum (fun t s => evaluateFunction P 8 centroidPts t s) t s / ((s : ℚ) + 1)
        = 1/4 := by
    intro t s
    have hrs : runningSum (fun t s => evaluateFunction P 8 centroidPts t s) t s
        = ((s : ℚ) + 1) * (1/4) := by
      simp only [runningSum, heval]
      rw [Finset.sum_const, Finset.card_range, nsmul_eq_mul]
      push_cast
      ring
    rw [hrs]
    have hne : ((s : ℚ) + 1) ≠ 0 := by positivity
    field_simp
    ring
  have hseq : ∀ t s : ℕ,
      seqError (fun t s => evaluateFunction P 8 centroidPts t s) (1/4) t s = 0 := by
    intro t s
    simp [seqError, hdiv t s]
  refine ⟨rfl, hdiv, ?_⟩
  rw [estimatorRun_eq]
  have hF : ∀ j ∈ List.range nS,
      ((∑ t ∈ Finset.range nT,
          seqError (fun t s => evaluateFunction P 8 centroidPts t s) (1/4) t j) / (nT : ℚ),
        foldlMax
          (fun t => seqError (fun t s => evaluateFunction P 8 centroidPts t s) (1/4) t j)
          0 (List.range nT))
        = ((0 : ℚ), (0 : ℚ)) := by
    intro j _
    have h1 : (∑ t ∈ Finset.range nT,
        seqError (fun t s => evaluateFunction P 8 centroidPts t s) (1/4) t j) = 0 :=
      Finset.sum_eq_zero (fun t _ => hseq t j)
    have h2 : foldlMax
        (fun t => seqError (fun t s => evaluateFunction P 8 centroidPts t s) (1/4) t j)
        0 (List.range nT) = 0 := by
      rw [foldlMax_congr _ (fun _ => 0) _ _ (fun a _ => hseq a j)]
      exact foldlMax_const_zero _
    rw [h1, h2, zero_div]
  rw [List.map_congr_left hF]
  rw [show (fun _ : ℕ => ((0 : ℚ), (0 : ℚ))) = Function.const ℕ ((0 : ℚ), (0 : ℚ)) from rfl]
  rw [List.map_const, List.length_range]

/-- C9: with numSamples = 4, numSequences = 1 and the corpus holding the four
corner points, the quarterdisk integrand is 1 only at (0,0); the running
estimate after 4 samples is 0.25, the error 0.25, and the single output line
is "4 0.250000". -/
theorem quarterdisk_corner_run (P : Prims) :
    evaluateFunction P 0 cornerPts 0 0 = 1
  ∧ evaluateFunction P 0 cornerPts 0 1 = 0
  ∧ evaluateFunction P 0 cornerPts 0 2 = 0
  ∧ evaluateFunction P 0 cornerPts 0 3 = 0
  ∧ (estimatorRun (fun t s => evaluateFunction P 0 cornerPts t s) (1/2) 1 4).2
      = [(1/2, 1/2), (0, 0), (1/6, 1/6), (1/4, 1/4)]
  ∧ reportOf (estimatorRun (fun t s => evaluateFunction P 0 cornerPts t s) (1/2) 1 4).2
      = ["4 0.250000"] := by
  have he0 : evaluateFunction P 0 cornerPts 0 0 = 1 := by
    norm_num [evaluateFunction, cornerPts, quarterdisk, M_PI]
  have he1 : evaluateFunction P 0 cornerPts 0 1 = 0 := by
    norm_num [evaluateFunction, cornerPts, quarterdisk, M_PI]
  have he2 : evaluateFunction P 0 cornerPts 0 2 = 0 := by
    norm_num [evaluateFunction, cornerPts, quarterdisk, M_PI]
  have he3 : evaluateFunction P 0 cornerPts 0 3 = 0 := by
    norm_num [evaluateFunction, cornerPts, quarterdisk, M_PI]
  have hrun : (estimatorRun (fun t s => evaluateFunction P 0 cornerPts t s) (1/2) 1 4).2
      = [(1/2, 1/2), (0, 0), (1/6, 1/6), (1/4, 1/4)] := by
    rw [estimatorRun_eq]
    have hr4 : List.range 4 = [0, 1, 2, 3] := rfl
    have hr1 : List.range 1 = [0] := rfl
    rw [hr4]
    simp only [List.map_cons, List.map_nil, hr1, Finset.range_one, Finset.sum_singleton]
    have hs0 : seqError (fun t s => evaluateFunction P 0 cornerPts t s) (1/2) 0 0 = 1/2 := by
      simp only [seqError, runningSum, Finset.sum_range_succ, Finset.sum_range_zero, he0]
      norm_num
    have hs1 : seqError (fun t s => evaluateFunction P 0 cornerPts t s) (1/2) 0 1 = 0 := by
      simp only [seqError, runningSum, Finset.sum_range_succ, Finset.sum_range_zero, he0, he1]
      norm_num
    have hs2 : seqError (fun t s => evaluateFunction P 0 cornerPts t s) (1/2) 0 2 = 1/6 := by
      simp only [seqError, runningSum, Finset.sum_range_succ, Finset.sum_range_zero,
        he0, he1, he2]
      norm_num [abs_sub_comm, abs_of_nonneg]
    have hs3 : seqError (fun t s => evaluateFunction P 0 cornerPts t s) (1/2) 0 3 = 1/4 := by
      simp only [seqError, runningSum, Finset.sum_range_succ, Finset.sum_range_zero,
        he0, he1, he2, he3]
      norm_num [abs_sub_comm, abs_of_nonneg]
    simp only [foldlMax, List.foldl_cons, List.foldl_nil, hs0, hs1, hs2, hs3]
    norm_num
  refine ⟨he0, he1, he2, he3, hrun, ?_⟩
  rw [hrun]
  have h6 : fmt6 (1/4) = "0.250000" := by
    have hm : (round (|(1/4 : ℚ)| * 1000000)).toNat = 250000 := by
      have habs : |(1/4 : ℚ)| = 1/4 := abs_of_nonneg (by norm_num)
      rw [round_eq, habs]
      have hfl : ⌊(1/4 : ℚ) * 1000000 + 1/2⌋ = 250000 := by
        rw [Int.floor_eq_iff]
        constructor <;> norm_num
      rw [hfl]
      rfl
    simp only [fmt6, hm]
    rw [if_neg (by norm_num)]
    decide
  have hrep : reportOf [((1 : ℚ)/2, (1 : ℚ)/2), (0, 0), (1/6, 1/6), (1/4, 1/4)]
      = [fmtLine 4 (1/4)] := by
    simp [reportOf, reportAux]
  rw [hrep]
  simp only [fmtLine, h6]
  decide

/-- C6: each 1D-embedded integrand is evaluated using only one coordinate of
the 2D sample point, the other ignored, with the exact per-entry axis
binding of the dispatch table: stepx, rampx, gaussianx and sin2x read the x
coordinate; lineary and siny read the y coordinate. -/
theorem evaluateFunction_axis_binding :
    (lookupFunction functionTable "stepx" = 12
      ∧ lookupFunction functionTable "rampx" = 13
      ∧ lookupFunction functionTable "lineary" = 14
      ∧ lookupFunction functionTable "gaussianx" = 15
      ∧ lookupFunction functionTable "siny" = 16
      ∧ lookupFunction functionTable "sin2x" = 17)
  ∧ (∀ (P : Prims) (pts : ℕ → ℕ → Point) (t s : ℕ),
        evaluateFunction P 12 pts t s = step (pts t s).x
      ∧ evaluateFunction P 13 pts t s = ramp (pts t s).x
      ∧ evaluateFunction P 14 pts t s = linear (pts t s).y
      ∧ evaluateFunction P 15 pts t s = gaussian1D P (pts t s).x
      ∧ evaluateFunction P 16 pts t s = sinx P (pts t s).y
      ∧ evaluateFunction P 17 pts t s = sin2x P (pts t s).x)
  ∧ (∀ (P : Prims) (x y y' : ℚ) (t s : ℕ),
        evaluateFunction P 12 (fun _ _ => ⟨x, y⟩) t s
          = evaluateFunction P 12 (fun _ _ => ⟨x, y'⟩) t s
      ∧ evaluateFunction P 13 (fun _ _ => ⟨x, y⟩) t s
          = evaluateFunction P 13 (fun _ _ => ⟨x, y'⟩) t s
      ∧ evaluateFunction P 15 (fun _ _ => ⟨x, y⟩) t s
          = evaluateFunction P 15 (fun _ _ => ⟨x, y'⟩) t s
      ∧ evaluateFunction P 17 (fun _ _ => ⟨x, y⟩) t s
          = evaluateFunction P 17 (fun _ _ => ⟨x, y'⟩) t s)
  ∧ (∀ (P : Prims) (x x' y : ℚ) (t s : ℕ),
        evaluateFunction P 14 (fun _ _ => ⟨x, y⟩) t s
          = evaluateFunction P 14 (fun _ _ => ⟨x', y⟩) t s
      ∧ evaluateFunction P 16 (fun _ _ => ⟨x, y⟩) t s
          = evaluateFunction P 16 (fun _ _ => ⟨x', y⟩) t s) :=
  ⟨⟨by decide, by decide, by decide, by decide, by decide, by decide⟩,
   fun _ _ _ _ => ⟨rfl, rfl, rfl, rfl, rfl, rfl⟩,
   fun P x _ _ _ _ =>
     ⟨@Eq.refl ℚ (step x), @Eq.refl ℚ (ramp x),
      @Eq.refl ℚ (gaussian1D P x), @Eq.refl ℚ (sin2x P x)⟩,
   fun P _ _ y _ _ => ⟨@Eq.refl ℚ (linear y), @Eq.refl ℚ (sinx P y)⟩⟩

/-- C5: a function name not in the 18-entry catalog makes the program print
a diagnostic containing the bad name, exit with code 1 and produce no table
output; a name in the catalog resolves to that entry's dispatch index and
reference value, and the run proceeds with them. -/
theorem mainRun_lookup (P : Prims) (pts : ℕ → ℕ → Point) (nS nT : ℕ)
    (bad good : String) (hbad : bad ∉ functionTable.map Prod.fst)
    (hgood : good ∈ functionTable.map Prod.fst) :
    mainRun P bad pts nS nT = (1, ["Unknown function: '" ++ bad ++ "'"])
  ∧ (∃ pre post : String, "Unknown function: '" ++ bad ++ "'" = pre ++ bad ++ post)
  ∧ lookupFunction functionTable good < NUMFUNCTIONS
  ∧ (functionTable.getD (lookupFunction functionTable good) ("", 0)).1 = good
  ∧ mainRun P good pts nS nT
      = (0, reportOf (estimatorRun
          (fun t s => evaluateFunction P (lookupFunction functionTable good) pts t s)
          ((functionTable.getD (lookupFunction functionTable good) ("", 0)).2) nT nS).2) := by
  have hlen : functionTable.length = NUMFUNCTIONS := rfl
  have h1 : lookupFunction functionTable bad = NUMFUNCTIONS := by
    rw [lookupFunction_eq_length functionTable bad hbad, hlen]
  obtain ⟨hg1, hg2⟩ := lookupFunction_mem functionTable good hgood
  rw [hlen] at hg1
  refine ⟨?_, ⟨"Unknown function: '", "'", rfl⟩, hg1, hg2, ?_⟩
  · simp only [mainRun, h1, if_pos]
  · simp only [mainRun, if_neg (Nat.ne_of_lt hg1)]

/-- Witness for C5 at the concrete names "bogus" (not in the catalog) and
"bilinear" (in the catalog). -/
theorem mainRun_lookup_witness :
    ("bogus" ∉ functionTable.map Prod.fst)
  ∧ ("bilinear" ∈ functionTable.map Prod.fst)
  ∧ (mainRun idPrims "bogus" centroidPts 1 1
        = (1, ["Unknown function: '" ++ "bogus" ++ "'"])
      ∧ (∃ pre post : String,
          "Unknown function: '" ++ "bogus" ++ "'" = pre ++ "bogus" ++ post)
      ∧ lookupFunction functionTable "bilinear" < NUMFUNCTIONS
      ∧ (functionTable.getD (lookupFunction functionTable "bilinear") ("", 0)).1
          = "bilinear"
      ∧ mainRun idPrims "bilinear" centroidPts 1 1
          = (0, reportOf (estimatorRun
              (fun t s => evaluateFunction idPrims
                (lookupFunction functionTable "bilinear") centroidPts t s)
              ((functionTable.getD (lookupFunction functionTable "bilinear") ("", 0)).2)
              1 1).2)) :=
  ⟨by decide, by decide,
   mainRun_lookup idPrims centroidPts 1 1 "bogus" "bilinear" (by decide) (by decide)⟩

/-- C2: the reporter emits exactly one line per sample index s with (s+1)
divisible by 4, holding the 1-based count and the averageError with exactly
6 digits after the decimal point; for numSamples = 1024 exactly 256 lines
are emitted with counts 4, 8, ..., 1024 in ascending order.  (The fflush
after each line is an I/O effect; emission order is modelled by the list.) -/
theorem reportOf_checkpoints_1024 (pairs : List (ℚ × ℚ)) (h : pairs.length = 1024) :
    reportOf pairs = (List.range 256).map
        (fun k => fmtLine (4 * k + 4) ((pairs.getD (4 * k + 3) (0, 0)).1))
  ∧ (reportOf pairs).length = 256
  ∧ ∀ q : ℚ, ∃ a b : String, fmt6 q = a ++ "." ++ b ∧ b.length = 6
      ∧ ∀ c ∈ b.data, c.isDigit = true := by
  have h1 : reportOf pairs = (List.range 256).map
      (fun k => fmtLine (0 + 4 * k + 4) ((pairs.getD (4 * k + 3) (0, 0)).1)) :=
    reportAux_chunks 256 0 pairs rfl (by omega)
  have h2 : reportOf pairs = (List.range 256).map
      (fun k => fmtLine (4 * k + 4) ((pairs.getD (4 * k + 3) (0, 0)).1)) := by
    rw [h1]
    apply List.map_congr_left
    intro k _
    rw [Nat.zero_add]
  exact ⟨h2, by rw [h2, List.length_map, List.length_range], fun q => fmt6_parts q⟩

/-- Witness for C2 at a concrete length-1024 input. -/
theorem reportOf_checkpoints_1024_witness :
    (List.replicate 1024 ((0 : ℚ), (0 : ℚ))).length = 1024
  ∧ (reportOf (List.replicate 1024 ((0 : ℚ), (0 : ℚ)))
        = (List.range 256).map (fun k => fmtLine (4 * k + 4)
            (((List.replicate 1024 ((0 : ℚ), (0 : ℚ))).getD (4 * k + 3) (0, 0)).1))
      ∧ (reportOf (List.replicate 1024 ((0 : ℚ), (0 : ℚ)))).length = 256
      ∧ ∀ q : ℚ, ∃ a b : String, fmt6 q = a ++ "." ++ b ∧ b.length = 6
          ∧ ∀ c ∈ b.data, c.isDigit = true) :=
  ⟨by rw [List.length_replicate], reportOf_checkpoints_1024 _ (by rw [List.length_replicate])⟩

/-- C4 (code bug): on a corpus file whose last declared sequence holds fewer
pairs than numSamples and then ends (c4chars, 2 pairs with numSamples = 10),
the reading phase does not terminate: after the inner loop breaks at end of
input, skipLine (line 444) runs at end of input, where fscanf "%c" stops
assigning c and the do-while condition tests an unchanged byte forever.
The divergence is modelled by readTables returning none. -/
theorem readTables_truncated_eof_diverges : readTables 10 1 c4chars = none := rfl

set_option maxRecDepth 4000 in
/-- C3 counterexample: on c3chars (2 parsed pairs, then a comment line,
with numSamples = 4), reading does NOT stop at the last successfully parsed
pair: fscanf returns 0 (not EOF) at the comment line, so slots 2 and 3 are
written with the stale values of x and y, and the estimator's running sum
over the 4 slots is 13/16 — not the 7/16 that summing only the 2 parsed
pairs would give.  So values from slots beyond the parsed prefix do enter
the running sum, contradicting the claim. -/
theorem readTables_writes_past_parsed_prefix :
    readTables 4 1 c3chars = some c3tab
  ∧ c3tab 0 2 = ⟨1/4, 3/4⟩
  ∧ c3tab 0 3 = ⟨1/4, 3/4⟩
  ∧ (⟨1/4, 3/4⟩ : Point) ≠ ⟨0, 0⟩
  ∧ (estimatorRun (fun t s => evaluateFunction idPrims 8 c3tab t s) (1/4) 1 4).1 0
      = 13/16
  ∧ (13 : ℚ)/16 ≠ 7/16 := by
  refine ⟨rfl, ?_, ?_, ?_, ?_, by norm_num⟩
  · have h : c3tab 0 2 = ⟨ratVal 1 [0] [2, 5], ratVal 1 [0] [7, 5]⟩ := rfl
    rw [h]
    simp only [Point.mk.injEq]
    constructor <;> norm_num [ratVal, digitsToNat]
  · have h : c3tab 0 3 = ⟨ratVal 1 [0] [2, 5], ratVal 1 [0] [7, 5]⟩ := rfl
    rw [h]
    simp only [Point.mk.injEq]
    constructor <;> norm_num [ratVal, digitsToNat]
  · simp only [ne_eq, Point.mk.injEq, not_and]
    intro h
    norm_num
  · have hsl : ∀ s : ℕ, s < 4 →
        evaluateFunction idPrims 8 c3tab 0 s = (c3tab 0 s).x * (c3tab 0 s).y :=
      fun s _ => rfl
    rw [estimatorRun_eq]
    show sumsAfter (fun t s => evaluateFunction idPrims 8 c3tab t s) 1 4 0 = 13/16
    simp only [sumsAfter, if_pos (show (0 : ℕ) < 1 by norm_num)]
    rw [Finset.sum_range_succ, Finset.sum_range_succ, Finset.sum_range_succ,
      Finset.sum_range_succ, Finset.sum_range_zero]
    rw [hsl 0 (by norm_num), hsl 1 (by norm_num), hsl 2 (by norm_num), hsl 3 (by norm_num)]
    have h0 : c3tab 0 0 = ⟨ratVal 1 [0] [5], ratVal 1 [0] [5]⟩ := rfl
    have h1 : c3tab 0 1 = ⟨ratVal 1 [0] [2, 5], ratVal 1 [0] [7, 5]⟩ := rfl
    have h2 : c3tab 0 2 = ⟨ratVal 1 [0] [2, 5], ratVal 1 [0] [7, 5]⟩ := rfl
    have h3 : c3tab 0 3 = ⟨ratVal 1 [0] [2, 5], ratVal 1 [0] [7, 5]⟩ := rfl
    rw [h0, h1, h2, h3]
    norm_num [ratVal, digitsToNat]

/-- C3 amended: the reading loop stops early only when fscanf reports end of
input (ok == -1); on any other conversion failure it keeps re-storing the
stale x and y into the remaining slots (slots 2 and 3 of c3chars repeat the
pair of slot 1), and the estimator evaluates every slot s < numSamples of
every sequence t < numSequences regardless, so whatever the table holds in
slots beyond the parsed prefix enters the running sums. -/
theorem estimatorRun_sums_every_slot :
    (∀ (e : ℕ → ℕ → ℚ) (r : ℚ) (nT nS : ℕ),
        (estimatorRun e r nT nS).1
          = fun t => if t < nT then ∑ s ∈ Finset.range nS, e t s else 0)
  ∧ readTables 4 1 c3chars = some c3tab
  ∧ c3tab 0 2 = c3tab 0 1
  ∧ c3tab 0 3 = c3tab 0 1 := by
  refine ⟨?_, rfl, ?_, ?_⟩
  · intro e r nT nS
    rw [estimatorRun_eq]
    rfl
  · show (⟨ratVal 1 [0] [2, 5], ratVal 1 [0] [7, 5]⟩ : Point)
      = ⟨ratVal 1 [0] [2, 5], ratVal 1 [0] [7, 5]⟩
    rfl
  · show (⟨ratVal 1 [0] [2, 5], ratVal 1 [0] [7, 5]⟩ : Point)
      = ⟨ratVal 1 [0] [2, 5], ratVal 1 [0] [7, 5]⟩
    rfl

/-- C10: the program never validates the CLI-supplied numSamples and
numSequences against the fixed capacities MAXTABLES x MAXSAMPLES of the
global samplePoints array; when numSamples ≤ 4096 and numSequences ≤ 10000,
every (t, s) slot the estimator depends on and the reader writes lies within
bounds, and outside that precondition the accessed slot (t, numSamples-1) or
(numSequences-1, s) is out of bounds. -/
theorem estimator_reader_bounds (nS nT : ℕ) :
    (nS ≤ MAXSAMPLES → nT ≤ MAXTABLES → ∀ t s : ℕ, t < nT → s < nS → inBounds t s)
  ∧ (∀ (e e' : ℕ → ℕ → ℚ) (r : ℚ),
      (∀ t s, t < nT → s < nS → e t s = e' t s) →
      estimatorRun e r nT nS = estimatorRun e' r nT nS)
  ∧ (∀ (e : ℕ → ℕ → ℚ) (r : ℚ) (t : ℕ),
      (estimatorRun e r nT nS).1 t
        = if t < nT then ∑ s ∈ Finset.range nS, e t s else 0)
  ∧ (∀ (cs : List Char) (tab : Table), readTables nS nT cs = some tab →
      ∀ t s : ℕ, ¬(t < nT ∧ s < nS) → tab t s = ⟨0, 0⟩)
  ∧ (MAXSAMPLES < nS → ¬ inBounds 0 (nS - 1))
  ∧ (MAXTABLES < nT → ¬ inBounds (nT - 1) 0) := by
  refine ⟨?_, ?_, ?_, ?_, ?_, ?_⟩
  · intro h1 h2 t s ht hs
    exact ⟨lt_of_lt_of_le ht h2, lt_of_lt_of_le hs h1⟩
  · exact fun e e' r h => estimatorRun_congr e e' r nT nS h
  · intro e r t
    rw [estimatorRun_eq]
    rfl
  · exact fun cs tab h t s hts => readTables_frame nS nT cs tab h t s hts
  · intro h hc
    obtain ⟨_, hB⟩ := hc
    simp only [MAXSAMPLES] at hB h
    omega
  · intro h hc
    obtain ⟨hA, _⟩ := hc
    simp only [MAXTABLES] at hA h
    omega

/-- Witness for C10 at concrete bounds (nS = 1, nT = 1, slot (0,0)). -/
theorem estimator_reader_bounds_witness : inBounds 0 0 :=
  (estimator_reader_bounds 1 1).1 (by decide) (by decide) 0 0 (by decide) (by decide)

end Funcsamp2D
